import Mathlib

/-!
Verification of the startup-dose-api content pipeline.

This file gives a shallow embedding, in Lean 4, of the pure logic of the
repository under verification:

* `generateSlug` (cmd/server/handler/company.go): slug derivation from a
  company name.  Go strings are sequences of bytes, but the slug function
  operates per rune through `strings.ToLower` and the regular expression
  `[^a-z0-9]+`; we model a string as a `List Char`.  Go `strings.ToLower`
  lowercases every Unicode letter while `Char.toLower` only lowercases
  basic latin letters; the difference is invisible here because the
  subsequent replacement step maps every character outside `[a-z0-9]`
  (lowercased or not) to a hyphen.
* `truncateCaption` (instagram client): Go `len` and slicing are
  byte-based, so captions are modelled as `List Nat` byte sequences.
* the Instagram publisher state machine (`PublishPost`,
  `waitForContainerReady`): remote calls are modelled by environments
  that script the observable outcome of each call, and traces of
  observable events (status fetches, sleeps, cancellation checks,
  publish calls) are collected.
* the generation orchestrator screenshot fallback chain and the OpenAI
  response parsing (`generateCompanyFromAI`).
-/

/- ## Slug derivation (handler/company.go, generateSlug) -/

/-- Membership in the character class `[a-z0-9]` used by the slug regular
expression. -/
def isSlugAlnum (c : Char) : Bool :=
  (97 ≤ c.toNat && c.toNat ≤ 122) || (48 ≤ c.toNat && c.toNat ≤ 57)

/-- Characters that can appear in a slug: `[a-z0-9-]`. -/
def isSlugChar (c : Char) : Bool :=
  isSlugAlnum c || c == '-'

/-- Model of `regexp.MustCompile` with pattern of one-or-more characters
outside `[a-z0-9]`, via `ReplaceAllString` replacing by a hyphen: every
maximal run of characters outside `[a-z0-9]` becomes a single hyphen.
The boolean state records whether we are currently inside such a run
(whose hyphen has already been emitted). -/
def replaceRunsGo : Bool → List Char → List Char
  | _, [] => []
  | inRun, c :: cs =>
    if isSlugAlnum c then c :: replaceRunsGo false cs
    else if inRun then replaceRunsGo true cs
    else '-' :: replaceRunsGo true cs

/-- Model of `strings.Trim(s, "-")` on the right side: removes the
trailing run of hyphens. -/
def trimTrailingHyphens : List Char → List Char
  | [] => []
  | c :: cs =>
    match trimTrailingHyphens cs with
    | [] => if c = '-' then [] else [c]
    | d :: r => c :: d :: r

/-- Model of `strings.Trim(s, "-")`: removes leading and trailing runs of
hyphens. -/
def trimHyphens (l : List Char) : List Char :=
  trimTrailingHyphens (l.dropWhile (fun c => c == '-'))

/-- Model of `generateSlug` (handler/company.go): lowercase, collapse
runs of characters outside `[a-z0-9]` to single hyphens, trim hyphens at
both ends. -/
def generateSlug (name : List Char) : List Char :=
  trimHyphens (replaceRunsGo false (name.map Char.toLower))

/-- No two adjacent hyphens occur in the list. -/
def noDoubleHyphen : List Char → Bool
  | c :: d :: rest => !(c == '-' && d == '-') && noDoubleHyphen (d :: rest)
  | _ => true

/- ## Caption truncation (instagram client, truncateCaption) -/

/-- Instagram caption hard cap, in bytes (`maxCaptionLength` constant). -/
def maxCaptionLength : Nat := 2200

/-- Model of `truncateCaption`.  Go strings are byte sequences and both
`len(caption)` and `caption[:maxCaptionLength-3]` are byte-based, so a
caption is a `List Nat` of bytes; `46` is the byte of the full stop. -/
def truncateCaption (caption : List Nat) : List Nat :=
  if caption.length ≤ maxCaptionLength then caption
  else caption.take (maxCaptionLength - 3) ++ [46, 46, 46]

/- ## Instagram publisher state machine (instagram client) -/

/-- Client credentials (`Client` struct of the instagram package). -/
structure Client where
  userID : String
  accessToken : String
  apiVersion : String

/-- Model of `Client.IsConfigured`. -/
def IsConfigured (c : Client) : Bool :=
  c.userID != "" && c.accessToken != ""

/-- Result struct returned by `PublishPost` (`PublishResult`). -/
structure PublishResult where
  mediaID : String
  posted : Bool
  error : String
deriving DecidableEq

/-- Observable outcome of one container-creation or publish call.  The
`transportFail` case covers request construction, sending, body reading
and JSON decoding failures, each of which the code maps to an error with
the given message; `apiError` is a decoded `error` envelope; `payload`
is a decoded response carrying the `id` field (possibly empty). -/
inductive RemoteOutcome where
  | transportFail (msg : String)
  | apiError (msg : String) (code : Int)
  | payload (id : String)

/-- Message built by `fmt.Errorf` for an API error envelope. -/
def apiErrMsg (m : String) (code : Int) : String :=
  ("API error: ") ++ m ++ (" (code: ") ++ toString code ++ (")")

/-- Model of `createMediaContainer` given the observable outcome of its
HTTP exchange: an error for transport or envelope failures or a missing
identifier, otherwise the container identifier. -/
def runCreateContainer : RemoteOutcome → Except String String
  | RemoteOutcome.transportFail m => Except.error m
  | RemoteOutcome.apiError m code => Except.error (apiErrMsg m code)
  | RemoteOutcome.payload i =>
    if i = "" then Except.error ("no container ID returned") else Except.ok i

/-- Model of `publishContainer` given the observable outcome of its HTTP
exchange; errors when the returned media identifier is missing. -/
def runPublishContainer : RemoteOutcome → Except String String
  | RemoteOutcome.transportFail m => Except.error m
  | RemoteOutcome.apiError m code => Except.error (apiErrMsg m code)
  | RemoteOutcome.payload i =>
    if i = "" then Except.error ("no media ID returned") else Except.ok i

/-- Observable outcome of one status-fetch attempt in the polling loop. -/
inductive PollResp where
  | transportFail (msg : String)
  | apiError (msg : String) (code : Int)
  | status (s : String)

/-- Observable events of one `PublishPost` run: the cancellation check
at the top of each loop iteration, a status fetch, the
`time.Sleep(containerPollDelay)` call carrying its duration in seconds,
entry into `createMediaContainer`, and entry into `publishContainer`. -/
inductive Ev where
  | checkCancel
  | fetchStatus
  | sleepDelay (seconds : Nat)
  | createCall
  | publishCall
deriving DecidableEq, BEq

/-- The `containerPollDelay` constant, in seconds. -/
def containerPollDelaySec : Nat := 2

/-- The `maxPollAttempts` constant. -/
def maxPollAttempts : Nat := 15

/-- Failure message produced when the attempt budget is exhausted. -/
def notReadyMsg : String :=
  ("container not ready after ") ++ toString maxPollAttempts ++ (" attempts")

/-- Model of the loop body of `waitForContainerReady`.  `cancel k` tells
whether the caller context is cancelled at the poll boundary before
attempt `k` (the `select` on `ctx.Done()`); `script k` is the outcome
the remote service gives to attempt `k`.  `fuel` is the number of
remaining attempts and `k` the index of the next attempt.  Returns the
result of the loop together with the trace of observable events. -/
def waitForContainerReadyAux (cancel : Nat → Bool) (script : Nat → PollResp) :
    Nat → Nat → Except String Unit × List Ev
  | 0, _ => (Except.error notReadyMsg, [])
  | fuel + 1, k =>
    if cancel k then (Except.error ("context canceled"), [Ev.checkCancel])
    else
      match script k with
      | PollResp.transportFail m =>
        (Except.error m, [Ev.checkCancel, Ev.fetchStatus])
      | PollResp.apiError m code =>
        (Except.error (apiErrMsg m code), [Ev.checkCancel, Ev.fetchStatus])
      | PollResp.status s =>
        if s = "FINISHED" then (Except.ok (), [Ev.checkCancel, Ev.fetchStatus])
        else if s = "ERROR" then
          (Except.error ("container processing failed"),
            [Ev.checkCancel, Ev.fetchStatus])
        else if s = "EXPIRED" then
          (Except.error ("container expired"), [Ev.checkCancel, Ev.fetchStatus])
        else
          -- `IN_PROGRESS` and any unrecognized status both fall through
          -- to the sleep and the next iteration.
          let rest := waitForContainerReadyAux cancel script fuel (k + 1)
          (rest.1,
            Ev.checkCancel :: Ev.fetchStatus ::
              Ev.sleepDelay containerPollDelaySec :: rest.2)

/-- Model of `waitForContainerReady`: run the loop with the full attempt
budget, starting at attempt 0. -/
def waitForContainerReady (cancel : Nat → Bool) (script : Nat → PollResp) :
    Except String Unit × List Ev :=
  waitForContainerReadyAux cancel script maxPollAttempts 0

/-- Scripted behaviour of the remote side and of the caller context for
one `PublishPost` run. -/
structure PublishEnv where
  createOutcome : RemoteOutcome
  cancel : Nat → Bool
  pollScript : Nat → PollResp
  publishOutcome : RemoteOutcome

/-- The complete observable outcome of one `PublishPost` call: the
structured result, the Go `error` return value (`none` models `nil`),
and the event trace. -/
structure PublishRun where
  result : PublishResult
  goError : Option String
  trace : List Ev

/-- Model of `PublishPost`: configuration check, container creation,
polling to readiness, publish; every failure is downgraded to a
structured result and the Go error returned to the caller is always
`nil`. -/
def PublishPost (c : Client) (env : PublishEnv) : PublishRun :=
  if !(IsConfigured c) then
    ⟨⟨"", false, ("Instagram client not configured")⟩, none, []⟩
  else
    match runCreateContainer env.createOutcome with
    | Except.error e =>
      ⟨⟨"", false, ("failed to create media container: ") ++ e⟩, none,
        [Ev.createCall]⟩
    | Except.ok _cid =>
      let w := waitForContainerReady env.cancel env.pollScript
      match w.1 with
      | Except.error e =>
        ⟨⟨"", false, ("container not ready: ") ++ e⟩, none,
          Ev.createCall :: w.2⟩
      | Except.ok _ =>
        match runPublishContainer env.publishOutcome with
        | Except.error e =>
          ⟨⟨"", false, ("failed to publish: ") ++ e⟩, none,
            Ev.createCall :: w.2 ++ [Ev.publishCall]⟩
        | Except.ok mid =>
          ⟨⟨mid, true, ""⟩, none, Ev.createCall :: w.2 ++ [Ev.publishCall]⟩

/-- Replaces every status string the loop does not recognize by
`IN_PROGRESS`, and keeps recognized statuses and non-status outcomes. -/
def normalizePollResp : PollResp → PollResp
  | PollResp.status s =>
    if s = "FINISHED" || s = "ERROR" || s = "EXPIRED" || s = "IN_PROGRESS"
    then PollResp.status s
    else PollResp.status ("IN_PROGRESS")
  | r => r

/-- Trace of `fuel` consecutive in-progress attempts. -/
def inProgressTrace : Nat → List Ev
  | 0 => []
  | fuel + 1 =>
    Ev.checkCancel :: Ev.fetchStatus ::
      Ev.sleepDelay containerPollDelaySec :: inProgressTrace fuel

/-- Scanner for the property that every status fetch is preceded by a
2-second delay since the previous status fetch (or since the start).
The boolean state records whether such a delay has been seen since the
last fetch; starting the scan with `false` demands a delay before the
first fetch, starting it with `true` exempts the first fetch. -/
def sleepSinceLastFetch : Bool → List Ev → Bool
  | _, [] => true
  | seen, Ev.sleepDelay n :: r =>
    sleepSinceLastFetch (seen || (n == containerPollDelaySec)) r
  | seen, Ev.fetchStatus :: r => seen && sleepSinceLastFetch false r
  | seen, _ :: r => sleepSinceLastFetch seen r

/-- Every status fetch in the trace is immediately preceded by a
cancellation check. -/
def cancelCheckedBeforeFetch : List Ev → Bool
  | [] => true
  | Ev.fetchStatus :: _ => false
  | Ev.checkCancel :: Ev.fetchStatus :: r => cancelCheckedBeforeFetch r
  | _ :: r => cancelCheckedBeforeFetch r

/-- Number of occurrences of an event in a trace. -/
def countEv (e : Ev) : List Ev → Nat
  | [] => 0
  | x :: r => (if x = e then 1 else 0) + countEv e r

/- ## Generation orchestrator (handler/company.go) -/

/-- Company data decoded from the first completion choice
(`CompanyFromAI` struct). -/
structure CompanyFromAI where
  name : String
  website : String
  coverImage : String
  description : String
  appeal : String
  linkedin : String
  instagram : String
  facebook : String
  twitter : String
deriving DecidableEq

/-- Environment of the screenshot fallback chain: the five configuration
values read from the environment, and the observable outcomes of the
three fallible steps (S3-uploader construction, screenshot capture,
S3 upload). -/
structure ScreenshotEnv where
  awsRegion : String
  awsAccessKey : String
  awsSecretKey : String
  s3Bucket : String
  screenshotAPIKey : String
  uploaderOutcome : Except String Unit
  screenshotOutcome : Except String (List Nat)
  uploadOutcome : Except String String

/-- The guard of the screenshot branch in `GenerateCompaniesHandler`:
all five configuration values and the AI-returned website must be
non-empty. -/
def screenshotConfigComplete (env : ScreenshotEnv) (website : String) : Bool :=
  env.awsRegion != "" && env.awsAccessKey != "" && env.awsSecretKey != "" &&
    env.s3Bucket != "" && env.screenshotAPIKey != "" && website != ""

/-- Outbound network calls of the screenshot fallback chain. -/
inductive NetEv where
  | screenshotCall
  | uploadCall
deriving DecidableEq, BEq

/-- Model of the cover-image selection in `GenerateCompaniesHandler`:
when the configuration is complete, try uploader construction,
screenshot capture and upload in order, falling back to the
AI-suggested cover image on any failure; otherwise use the AI-suggested
cover image directly.  Returns the chosen URL and the trace of network
calls made. -/
def resolveCoverImage (env : ScreenshotEnv) (data : CompanyFromAI) :
    String × List NetEv :=
  if screenshotConfigComplete env data.website then
    match env.uploaderOutcome with
    | Except.error _ => (data.coverImage, [])
    | Except.ok _ =>
      match env.screenshotOutcome with
      | Except.error _ => (data.coverImage, [NetEv.screenshotCall])
      | Except.ok _bytes =>
        match env.uploadOutcome with
        | Except.error _ =>
          (data.coverImage, [NetEv.screenshotCall, NetEv.uploadCall])
        | Except.ok s3URL =>
          (s3URL, [NetEv.screenshotCall, NetEv.uploadCall])
  else (data.coverImage, [])

/-- Model of `strings.TrimPrefix`: drop `pre` from the front of `s`
when it is a prefix, otherwise return `s` unchanged. -/
def goTrimAtFront (s pre : String) : String :=
  if pre.isPrefixOf s then s.drop pre.length else s

/-- Model of `stripProtocol`. -/
def stripProtocol (url : String) : String :=
  goTrimAtFront (goTrimAtFront url ("https://")) ("http://")

/-- The field map built for insertion (`companyMap`); social fields are
`none` when omitted. -/
structure CompanyMap where
  name : String
  slug : String
  website : String
  coverImage : String
  description : String
  appeal : String
  twitter : Option String
  linkedin : Option String
  facebook : Option String
  instagram : Option String
deriving DecidableEq

/-- Model of the construction of `companyMap` from the AI data and the
chosen cover-image URL. -/
def buildCompanyMap (data : CompanyFromAI) (coverImageURL : String) :
    CompanyMap where
  name := data.name
  slug := String.mk (generateSlug data.name.toList)
  website := stripProtocol data.website
  coverImage := coverImageURL
  description := data.description
  appeal := data.appeal
  twitter := if data.twitter = "" then none else some data.twitter
  linkedin := if data.linkedin = "" then none else some data.linkedin
  facebook := if data.facebook = "" then none else some data.facebook
  instagram := if data.instagram = "" then none else some data.instagram

/-- HTTP response of the generation handler after a successful AI call:
either the persisted company (HTTP 200) or an error body with its HTTP
status. -/
inductive HandlerResp where
  | okCompany (m : CompanyMap)
  | errResp (status : Nat) (code : String) (msg : String)
deriving DecidableEq

/-- Model of the tail of `GenerateCompaniesHandler` after a successful
AI generation: resolve the cover image, build the insertion map, insert
exactly once; an insert failure yields HTTP 500, otherwise HTTP 200
with the persisted record.  Returns the response, the number of insert
calls issued, and the trace of screenshot-chain network calls. -/
def generateAfterAI (env : ScreenshotEnv) (data : CompanyFromAI)
    (insertSucceeds : Bool) : HandlerResp × Nat × List NetEv :=
  let cover := resolveCoverImage env data
  let m := buildCompanyMap data cover.1
  if insertSucceeds then (HandlerResp.okCompany m, 1, cover.2)
  else
    (HandlerResp.errResp 500 ("internal_server_error")
      ("Failed to save company to database"), 1, cover.2)

/- ## OpenAI response parsing (handler/company.go, generateCompanyFromAI) -/

/-- JSON values, as far as `encoding/json` decoding of the completion
content distinguishes them. -/
inductive Json where
  | null
  | bool (b : Bool)
  | num (n : Int)
  | str (s : String)
  | arr (elems : List Json)
  | obj (fields : List (String × Json))

/-- Go `json.Unmarshal` semantics for one declared `string` field of a
JSON object: a missing key or an explicit `null` leaves the zero value
`""`; a string value is taken as is; any other value type is a decoding
error.  Assumes the object has no duplicate keys. -/
def getStringField (fields : List (String × Json)) (key : String) :
    Option String :=
  match fields.lookup key with
  | none => some ""
  | some Json.null => some ""
  | some (Json.str s) => some s
  | some _ => none

/-- Go `json.Unmarshal` of a JSON value into the `CompanyFromAI` struct:
succeeds on `null` (zero value) and on objects all of whose declared
fields decode; unknown keys are ignored; every other top-level value is
an error.  No field is required. -/
def decodeCompanyFromAI : Json → Option CompanyFromAI
  | Json.null => some ⟨"", "", "", "", "", "", "", "", ""⟩
  | Json.obj fields => do
    let n ← getStringField fields ("name")
    let w ← getStringField fields ("website")
    let ci ← getStringField fields ("cover_image")
    let d ← getStringField fields ("description")
    let ap ← getStringField fields ("appeal")
    let li ← getStringField fields ("linkedin")
    let ig ← getStringField fields ("instagram")
    let fb ← getStringField fields ("facebook")
    let tw ← getStringField fields ("twitter")
    some ⟨n, w, ci, d, ap, li, ig, fb, tw⟩
  | _ => none

/-- Post-processing of the `appeal` field: remove list-container tags
and trim surrounding whitespace (`strings.ReplaceAll` twice, then
`strings.TrimSpace`). -/
def postProcessAppeal (s : String) : String :=
  ((s.replace ("<ul>") ("")).replace ("</ul>") ("")).trim

/-- Message content of a completion choice: `some j` when the content
string is valid JSON with value `j`; `none` when it is not valid JSON. -/
structure AIMessage where
  content : Option Json

/-- One completion choice. -/
structure AIChoice where
  message : AIMessage

/-- Decoded body of the completion response (`OpenAIChatResponse`). -/
structure AIChatResponse where
  choices : List AIChoice

/-- Observable outcome of the completion HTTP call: transport failure
(request construction or sending), or a response with its status code
and its body, where `none` models a body that does not decode as
`OpenAIChatResponse`. -/
inductive AIOutcome where
  | transportFail
  | httpResp (status : Nat) (body : Option AIChatResponse)

/-- Error cases of `generateCompanyFromAI`. -/
inductive GenErr where
  | transport
  | badStatus (status : Nat)
  | decodeFail
  | noChoices
  | contentParse
deriving DecidableEq

/-- Model of `generateCompanyFromAI` over the observable outcome of the
completion call. -/
def generateCompanyFromAI : AIOutcome → Except GenErr CompanyFromAI
  | AIOutcome.transportFail => Except.error GenErr.transport
  | AIOutcome.httpResp status body =>
    if status = 200 then
      match body with
      | none => Except.error GenErr.decodeFail
      | some resp =>
        match resp.choices with
        | [] => Except.error GenErr.noChoices
        | choice :: _ =>
          match choice.message.content with
          | none => Except.error GenErr.contentParse
          | some j =>
            match decodeCompanyFromAI j with
            | none => Except.error GenErr.contentParse
            | some comp =>
              Except.ok { comp with appeal := postProcessAppeal comp.appeal }
    else Except.error (GenErr.badStatus status)

/-- Whether an upstream parse result is an error. -/
def isErrorResult : Except GenErr CompanyFromAI → Bool
  | Except.error _ => true
  | Except.ok _ => false

/-- Modelled from the spec: the expected JSON shape of the completion
content, with `name`, `website`, `cover_image`, `description`, `appeal`
as required string fields (claim C7 and spec section 6). -/
def specExpectedShape (j : Json) : Bool :=
  match j with
  | Json.obj fields =>
    (match fields.lookup ("name") with
      | some (Json.str _) => true | _ => false) &&
    (match fields.lookup ("website") with
      | some (Json.str _) => true | _ => false) &&
    (match fields.lookup ("cover_image") with
      | some (Json.str _) => true | _ => false) &&
    (match fields.lookup ("description") with
      | some (Json.str _) => true | _ => false) &&
    (match fields.lookup ("appeal") with
      | some (Json.str _) => true | _ => false)
  | _ => false

/-- Modelled from the spec: the failure condition claimed by C7 for
`generateCompanyFromAI` — unreachable API, non-200 status, undecodable
body, zero choices, or content that does not parse as the expected
shape with its required fields. -/
def specClaimsFailure : AIOutcome → Bool
  | AIOutcome.transportFail => true
  | AIOutcome.httpResp status body =>
    (status != 200) ||
    (match body with
      | none => true
      | some resp =>
        match resp.choices with
        | [] => true
        | choice :: _ =>
          match choice.message.content with
          | none => true
          | some j => !(specExpectedShape j))

/-- The failure condition of `generateCompanyFromAI` as the code has it:
like the claimed condition, but content parsing is lenient — only a
non-object, non-null top level, invalid JSON, or a declared field bound
to a value that is neither a string nor null fails; missing fields are
not required. -/
def codeFailureCond : AIOutcome → Bool
  | AIOutcome.transportFail => true
  | AIOutcome.httpResp status body =>
    (status != 200) ||
    (match body with
      | none => true
      | some resp =>
        match resp.choices with
        | [] => true
        | choice :: _ =>
          match choice.message.content with
          | none => true
          | some j => (decodeCompanyFromAI j).isNone)

/- ## Slug lemmas -/

theorem isSlugAlnum_ne_hyphen {c : Char} (h : isSlugAlnum c = true) :
    ¬ (c = '-') := by
  intro he
  subst he
  exact absurd h (by decide)

theorem isSlugChar_of_alnum {c : Char} (h : isSlugAlnum c = true) :
    isSlugChar c = true := by
  simp [isSlugChar, h]

theorem mem_replaceRunsGo {c : Char} :
    ∀ (b : Bool) (l : List Char), c ∈ replaceRunsGo b l → isSlugChar c = true := by
  intro b l
  induction l generalizing b with
  | nil => intro h; simp [replaceRunsGo] at h
  | cons a as ih =>
    intro h
    by_cases ha : isSlugAlnum a = true
    · simp only [replaceRunsGo, ha, if_true] at h
      rcases List.mem_cons.mp h with h | h
      · subst h; exact isSlugChar_of_alnum ha
      · exact ih false h
    · simp only [replaceRunsGo, ha, if_false] at h
      cases b with
      | true => exact ih true (by simpa using h)
      | false =>
        rcases List.mem_cons.mp (by simpa using h) with h | h
        · subst h; decide
        · exact ih true h

theorem head_replaceRunsGo_true :
    ∀ (l : List Char) (c : Char) (r : List Char),
      replaceRunsGo true l = c :: r → isSlugAlnum c = true := by
  intro l
  induction l with
  | nil => intro c r h; simp [replaceRunsGo] at h
  | cons a as ih =>
    intro c r h
    by_cases ha : isSlugAlnum a = true
    · simp only [replaceRunsGo, ha, if_true] at h
      injection h with h1 h2
      exact h1 ▸ ha
    · simp only [replaceRunsGo, ha, if_false, if_true] at h
      exact ih c r h

theorem noDoubleHyphen_tail {c : Char} {l : List Char}
    (h : noDoubleHyphen (c :: l) = true) : noDoubleHyphen l = true := by
  cases l with
  | nil => rfl
  | cons d r =>
    simp only [noDoubleHyphen, Bool.and_eq_true] at h
    exact h.2

theorem noDoubleHyphen_head {c d : Char} {r : List Char}
    (h : noDoubleHyphen (c :: d :: r) = true) : ¬ (c = '-' ∧ d = '-') := by
  simp only [noDoubleHyphen, Bool.and_eq_true, Bool.not_eq_true',
    Bool.and_eq_false_iff, beq_eq_false_iff_ne, ne_eq] at h
  rcases h.1 with h1 | h1
  · exact fun hcd => h1 hcd.1
  · exact fun hcd => h1 hcd.2

theorem noDoubleHyphen_replaceRunsGo :
    ∀ (b : Bool) (l : List Char), noDoubleHyphen (replaceRunsGo b l) = true := by
  intro b l
  induction l generalizing b with
  | nil => rfl
  | cons a as ih =>
    by_cases ha : isSlugAlnum a = true
    · simp only [replaceRunsGo, ha, if_true]
      cases hr : replaceRunsGo false as with
      | nil => rfl
      | cons d r =>
        simp only [noDoubleHyphen, Bool.and_eq_true]
        constructor
        · have : ¬ (a = '-') := isSlugAlnum_ne_hyphen ha
          simp [this]
        · rw [← hr]; exact hr ▸ ih false
    · cases b with
      | true =>
        have : replaceRunsGo true (a :: as) = replaceRunsGo true as := by
          simp [replaceRunsGo, ha]
        rw [this]
        exact ih true
      | false =>
        have : replaceRunsGo false (a :: as) = '-' :: replaceRunsGo true as := by
          simp [replaceRunsGo, ha]
        rw [this]
        cases hr : replaceRunsGo true as with
        | nil => simp [noDoubleHyphen]
        | cons d r =>
          have hd : isSlugAlnum d = true := head_replaceRunsGo_true as d r hr
          simp only [noDoubleHyphen, Bool.and_eq_true]
          constructor
          · have : ¬ (d = '-') := isSlugAlnum_ne_hyphen hd
            simp [this]
          · exact hr ▸ ih true

theorem replaceRunsGo_fixed :
    ∀ (l : List Char) (b : Bool),
      (∀ c ∈ l, isSlugChar c = true) → noDoubleHyphen l = true →
      (b = true → ¬ l.head? = some '-') → replaceRunsGo b l = l := by
  intro l
  induction l with
  | nil => intro b _ _ _; cases b <;> rfl
  | cons a as ih =>
    intro b hchars hnd hhead
    by_cases ha : isSlugAlnum a = true
    · have htail : replaceRunsGo false as = as :=
        ih false (fun c hc => hchars c (List.mem_cons_of_mem a hc))
          (noDoubleHyphen_tail hnd) (fun h => nomatch h)
      cases b <;> simp [replaceRunsGo, ha, htail]
    · have ha' : a = '-' := by
        have := hchars a (List.mem_cons_self a as)
        simp only [isSlugChar, Bool.or_eq_true, beq_iff_eq] at this
        rcases this with h | h
        · exact absurd h ha
        · exact h
      cases b with
      | true =>
        exact absurd (by rw [ha']; rfl) (hhead rfl)
      | false =>
        have hnext : ¬ as.head? = some '-' := by
          cases as with
          | nil => simp
          | cons d r =>
            have := noDoubleHyphen_head hnd
            simp only [List.head?_cons, Option.some.injEq]
            exact fun hd => this ⟨ha', hd⟩
        have htail : replaceRunsGo true as = as :=
          ih true (fun c hc => hchars c (List.mem_cons_of_mem a hc))
            (noDoubleHyphen_tail hnd) (fun _ => hnext)
        have hyph : isSlugAlnum '-' = false := by decide
        simp [replaceRunsGo, ha, htail, ha', hyph]

theorem mem_replaceRunsGo_of_alnum {c : Char} (hc : isSlugAlnum c = true) :
    ∀ (b : Bool) (l : List Char), c ∈ l → c ∈ replaceRunsGo b l := by
  intro b l
  induction l generalizing b with
  | nil => intro h; exact absurd h (List.not_mem_nil c)
  | cons a as ih =>
    intro h
    by_cases ha : isSlugAlnum a = true
    · rcases List.mem_cons.mp h with h | h
      · subst h; simp [replaceRunsGo, ha]
      · simp only [replaceRunsGo, ha, if_true]
        exact List.mem_cons_of_mem a (ih false h)
    · have hca : ¬ (c = a) := fun he => ha (he ▸ hc)
      have hmem : c ∈ as := by
        rcases List.mem_cons.mp h with h | h
        · exact absurd h hca
        · exact h
      cases b with
      | true =>
        have : replaceRunsGo true (a :: as) = replaceRunsGo true as := by
          simp [replaceRunsGo, ha]
        rw [this]; exact ih true hmem
      | false =>
        have : replaceRunsGo false (a :: as) = '-' :: replaceRunsGo true as := by
          simp [replaceRunsGo, ha]
        rw [this]
        exact List.mem_cons_of_mem _ (ih true hmem)

/- ## Trim lemmas -/

theorem trimTrailingHyphens_eq_nil :
    ∀ l : List Char, trimTrailingHyphens l = [] → ∀ c ∈ l, c = '-' := by
  intro l
  induction l with
  | nil => intro _ c hc; exact absurd hc (List.not_mem_nil c)
  | cons a as ih =>
    intro h c hc
    cases hr : trimTrailingHyphens as with
    | nil =>
      simp only [trimTrailingHyphens, hr] at h
      by_cases hah : a = '-'
      · rcases List.mem_cons.mp hc with hc | hc
        · exact hc ▸ hah
        · exact ih hr c hc
      · simp [hah] at h
    | cons d r =>
      simp [trimTrailingHyphens, hr] at h

theorem mem_trimTrailingHyphens {c : Char} :
    ∀ l : List Char, c ∈ l → ¬ (c = '-') → c ∈ trimTrailingHyphens l := by
  intro l
  induction l with
  | nil => intro h _; exact absurd h (List.not_mem_nil c)
  | cons a as ih =>
    intro h hc
    cases hr : trimTrailingHyphens as with
    | nil =>
      rcases List.mem_cons.mp h with h | h
      · subst h
        simp [trimTrailingHyphens, hr, hc]
      · exact absurd (trimTrailingHyphens_eq_nil as hr c h) hc
    | cons d r =>
      simp only [trimTrailingHyphens, hr]
      rcases List.mem_cons.mp h with h | h
      · exact h ▸ List.mem_cons_self _ _
      · exact List.mem_cons_of_mem a (hr ▸ ih h hc)

theorem mem_of_mem_trimTrailingHyphens {c : Char} :
    ∀ l : List Char, c ∈ trimTrailingHyphens l → c ∈ l := by
  intro l
  induction l with
  | nil => intro h; exact absurd h (List.not_mem_nil c)
  | cons a as ih =>
    intro h
    cases hr : trimTrailingHyphens as with
    | nil =>
      simp only [trimTrailingHyphens, hr] at h
      by_cases hah : a = '-'
      · simp [hah] at h
      · simp only [hah, if_false] at h
        rcases List.mem_singleton.mp h with h
        exact h ▸ List.mem_cons_self _ _
    | cons d r =>
      simp only [trimTrailingHyphens, hr] at h
      rcases List.mem_cons.mp h with h | h
      · exact h ▸ List.mem_cons_self _ _
      · exact List.mem_cons_of_mem a (ih (hr ▸ h))

theorem getLast?_trimTrailingHyphens :
    ∀ l : List Char, ¬ ((trimTrailingHyphens l).getLast? = some '-') := by
  intro l
  induction l with
  | nil => simp [trimTrailingHyphens]
  | cons a as ih =>
    cases hr : trimTrailingHyphens as with
    | nil =>
      simp only [trimTrailingHyphens, hr]
      by_cases hah : a = '-'
      · simp [hah]
      · simp [hah, List.getLast?_singleton]
    | cons d r =>
      simp only [trimTrailingHyphens, hr, List.getLast?_cons_cons]
      rw [← hr] at *
      intro h
      rw [hr] at h
      exact ih (hr ▸ h)

theorem head?_trimTrailingHyphens :
    ∀ l : List Char,
      trimTrailingHyphens l = [] ∨
        (trimTrailingHyphens l).head? = l.head? := by
  intro l
  cases l with
  | nil => exact Or.inl rfl
  | cons a as =>
    cases hr : trimTrailingHyphens as with
    | nil =>
      by_cases hah : a = '-'
      · exact Or.inl (by simp [trimTrailingHyphens, hr, hah])
      · exact Or.inr (by simp [trimTrailingHyphens, hr, hah])
    | cons d r =>
      exact Or.inr (by simp [trimTrailingHyphens, hr])

theorem noDoubleHyphen_trimTrailingHyphens :
    ∀ l : List Char, noDoubleHyphen l = true →
      noDoubleHyphen (trimTrailingHyphens l) = true := by
  intro l
  induction l with
  | nil => intro _; rfl
  | cons a as ih =>
    intro h
    cases hr : trimTrailingHyphens as with
    | nil =>
      simp only [trimTrailingHyphens, hr]
      by_cases hah : a = '-'
      · simp [hah, noDoubleHyphen]
      · simp [hah, noDoubleHyphen]
    | cons d r =>
      simp only [trimTrailingHyphens, hr]
      have htail : noDoubleHyphen (d :: r) = true :=
        hr ▸ ih (noDoubleHyphen_tail h)
      have hpair : ¬ (a = '-' ∧ d = '-') := by
        rcases head?_trimTrailingHyphens as with h1 | h1
        · rw [h1] at hr; exact absurd hr (by simp)
        · rw [hr] at h1
          cases as with
          | nil => simp at h1
          | cons e es =>
            simp only [List.head?_cons, Option.some.injEq] at h1
            subst h1
            exact noDoubleHyphen_head h
      simp only [noDoubleHyphen, Bool.and_eq_true]
      exact ⟨by simp [hpair]; tauto, htail⟩

theorem trimTrailingHyphens_fixed :
    ∀ l : List Char, ¬ (l.getLast? = some '-') → trimTrailingHyphens l = l := by
  intro l
  induction l with
  | nil => intro _; rfl
  | cons a as ih =>
    intro h
    cases as with
    | nil =>
      have : ¬ (a = '-') := by
        simp only [List.getLast?_singleton, Option.some.injEq] at h
        exact h
      simp [trimTrailingHyphens, this]
    | cons e es =>
      have htail : trimTrailingHyphens (e :: es) = e :: es :=
        ih (by rw [← List.getLast?_cons_cons]; exact h)
      have hstep : trimTrailingHyphens (a :: e :: es) =
          match trimTrailingHyphens (e :: es) with
          | [] => if a = '-' then [] else [a]
          | d :: r => a :: d :: r := rfl
      rw [hstep, htail]

theorem head?_dropWhileHyphen :
    ∀ l : List Char,
      ¬ ((l.dropWhile (fun c => c == '-')).head? = some '-') := by
  intro l
  induction l with
  | nil => simp
  | cons a as ih =>
    by_cases ha : (a == '-') = true
    · simpa [List.dropWhile_cons, ha] using ih
    · have hd : (a :: as).dropWhile (fun c => c == '-') = a :: as := by
        simp [List.dropWhile_cons, ha]
      rw [hd]
      simp only [List.head?_cons, Option.some.injEq]
      exact fun h => ha (by rw [h]; rfl)

theorem mem_dropWhileHyphen {c : Char} :
    ∀ l : List Char, c ∈ l → ¬ (c = '-') →
      c ∈ l.dropWhile (fun c => c == '-') := by
  intro l
  induction l with
  | nil => intro h _; exact absurd h (List.not_mem_nil c)
  | cons a as ih =>
    intro h hc
    by_cases ha : (a == '-') = true
    · have hane : ¬ (c = a) := fun he => hc (he.trans (beq_iff_eq.mp ha))
      have hmem : c ∈ as := by
        rcases List.mem_cons.mp h with h | h
        · exact absurd h hane
        · exact h
      simpa [List.dropWhile_cons, ha] using ih hmem hc
    · simpa [List.dropWhile_cons, ha] using h

theorem mem_of_mem_dropWhile {p : Char → Bool} {c : Char} :
    ∀ l : List Char, c ∈ l.dropWhile p → c ∈ l := by
  intro l
  induction l with
  | nil => intro h; exact h
  | cons a as ih =>
    intro h
    by_cases ha : p a = true
    · simp only [List.dropWhile_cons, ha, if_true] at h
      exact List.mem_cons_of_mem a (ih h)
    · simpa [List.dropWhile_cons, ha] using h

theorem noDoubleHyphen_dropWhile {p : Char → Bool} :
    ∀ l : List Char, noDoubleHyphen l = true →
      noDoubleHyphen (l.dropWhile p) = true := by
  intro l
  induction l with
  | nil => intro _; rfl
  | cons a as ih =>
    intro h
    by_cases ha : p a = true
    · simp only [List.dropWhile_cons, ha, if_true]
      exact ih (noDoubleHyphen_tail h)
    · simpa [List.dropWhile_cons, ha] using h

theorem dropWhileHyphen_fixed :
    ∀ l : List Char, ¬ (l.head? = some '-') →
      l.dropWhile (fun c => c == '-') = l := by
  intro l h
  cases l with
  | nil => rfl
  | cons a as =>
    have : ¬ ((a == '-') = true) := by
      simp only [List.head?_cons, Option.some.injEq] at h
      exact fun hb => h (beq_iff_eq.mp hb)
    simp [List.dropWhile_cons, this]

/- ## generateSlug invariants -/

theorem generateSlug_mem {c : Char} {s : List Char}
    (h : c ∈ generateSlug s) : isSlugChar c = true := by
  unfold generateSlug trimHyphens at h
  exact mem_replaceRunsGo false _
    (mem_of_mem_dropWhile _ (mem_of_mem_trimTrailingHyphens _ h))

theorem generateSlug_noDouble (s : List Char) :
    noDoubleHyphen (generateSlug s) = true :=
  noDoubleHyphen_trimTrailingHyphens _
    (noDoubleHyphen_dropWhile _ (noDoubleHyphen_replaceRunsGo false _))

theorem generateSlug_head (s : List Char) :
    ¬ (generateSlug s).head? = some '-' := by
  unfold generateSlug trimHyphens
  rcases head?_trimTrailingHyphens
      ((replaceRunsGo false (s.map Char.toLower)).dropWhile
        (fun c => c == '-')) with h | h
  · rw [h]; simp
  · rw [h]; exact head?_dropWhileHyphen _

theorem generateSlug_last (s : List Char) :
    ¬ (generateSlug s).getLast? = some '-' :=
  getLast?_trimTrailingHyphens _

theorem toLower_slugChar {c : Char} (h : isSlugChar c = true) :
    Char.toLower c = c := by
  simp only [isSlugChar, isSlugAlnum, Bool.or_eq_true, Bool.and_eq_true,
    decide_eq_true_eq, beq_iff_eq] at h
  rcases h with (h | h) | h
  · unfold Char.toLower
    show (if c.toNat ≥ 65 ∧ c.toNat ≤ 90 then Char.ofNat (c.toNat + 32) else c) = c
    rw [if_neg (by omega)]
  · unfold Char.toLower
    show (if c.toNat ≥ 65 ∧ c.toNat ≤ 90 then Char.ofNat (c.toNat + 32) else c) = c
    rw [if_neg (by omega)]
  · subst h; decide

theorem map_toLower_fixed :
    ∀ l : List Char, (∀ c ∈ l, isSlugChar c = true) →
      l.map Char.toLower = l := by
  intro l
  induction l with
  | nil => intro _; rfl
  | cons a as ih =>
    intro h
    simp only [List.map_cons]
    rw [toLower_slugChar (h a (List.mem_cons_self a as)),
      ih (fun c hc => h c (List.mem_cons_of_mem a hc))]

theorem generateSlug_fixed {t : List Char}
    (hchars : ∀ c ∈ t, isSlugChar c = true)
    (hnd : noDoubleHyphen t = true)
    (hhead : ¬ t.head? = some '-')
    (hlast : ¬ t.getLast? = some '-') :
    generateSlug t = t := by
  unfold generateSlug trimHyphens
  rw [map_toLower_fixed t hchars,
    replaceRunsGo_fixed t false hchars hnd (fun h => nomatch h),
    dropWhileHyphen_fixed t hhead,
    trimTrailingHyphens_fixed t hlast]

/- ## Claim theorems about generateSlug -/

/-- C5: for every company name (in particular every name containing
mixed case, spaces and punctuation), `generateSlug` returns a string
that is entirely lowercase and drawn from `[a-z0-9-]`, with no leading
or trailing hyphen and no two consecutive hyphens; and
`generateSlug "Acme AI, Inc." = "acme-ai-inc"`. -/
theorem generateSlug_sanitizes (s : List Char) :
    (∀ c ∈ generateSlug s, isSlugChar c = true ∧ Char.toLower c = c) ∧
    ¬ (generateSlug s).head? = some '-' ∧
    ¬ (generateSlug s).getLast? = some '-' ∧
    noDoubleHyphen (generateSlug s) = true ∧
    generateSlug (String.toList ("Acme AI, Inc.")) =
      String.toList ("acme-ai-inc") := by
  refine ⟨fun c hc => ?_, generateSlug_head s, generateSlug_last s,
    generateSlug_noDouble s, by decide⟩
  have h := generateSlug_mem hc
  exact ⟨h, toLower_slugChar h⟩

/-- C9 counterexample: the slug derived from the name `"!!!"` is empty,
so the non-emptiness invariant does not hold for every AI-supplied
name. -/
theorem generateSlug_empty_cex :
    generateSlug (String.toList ("!!!")) = [] ∧
    generateSlug (String.toList ("")) = [] := by
  constructor <;> decide

/-- C9 amended: the slug derived by `generateSlug` is non-empty for
every company name that contains at least one character that lowercases
into `[a-z0-9]`; with no such character (for example a name made only
of punctuation) the slug is empty. -/
theorem generateSlug_nonempty_of_alnum (s : List Char)
    (h : ∃ c ∈ s, isSlugAlnum (Char.toLower c) = true) :
    generateSlug s ≠ [] := by
  obtain ⟨c, hc, halnum⟩ := h
  have hmap : Char.toLower c ∈ s.map Char.toLower :=
    List.mem_map_of_mem Char.toLower hc
  have hne : ¬ (Char.toLower c = '-') := isSlugAlnum_ne_hyphen halnum
  have h1 : Char.toLower c ∈ replaceRunsGo false (s.map Char.toLower) :=
    mem_replaceRunsGo_of_alnum halnum false _ hmap
  have h2 := mem_dropWhileHyphen _ h1 hne
  have h3 := mem_trimTrailingHyphens _ h2 hne
  exact List.ne_nil_of_mem h3

/-- C9 witness: the amended theorem applied at the concrete name
`"Acme"`. -/
theorem generateSlug_nonempty_of_alnum_witness :
    generateSlug (String.toList ("Acme")) ≠ [] :=
  generateSlug_nonempty_of_alnum (String.toList ("Acme"))
    ⟨'c', by decide, by decide⟩

/-- C10: `generateSlug` is idempotent — every derived slug is a fixed
point of the derivation. -/
theorem generateSlug_idempotent (s : List Char) :
    generateSlug (generateSlug s) = generateSlug s :=
  generateSlug_fixed (fun _ hc => generateSlug_mem hc)
    (generateSlug_noDouble s) (generateSlug_head s) (generateSlug_last s)

/- ## Claim theorem about truncateCaption -/

/-- C6: a caption longer than 2200 bytes is truncated to exactly 2200
bytes ending in `...`, keeping the first 2197 bytes of the input; a
caption of at most 2200 bytes is returned unchanged; hence the function
is idempotent. -/
theorem truncateCaption_cap (s : List Nat) :
    (maxCaptionLength < s.length →
      (truncateCaption s).length = maxCaptionLength ∧
      (truncateCaption s).take 2197 = s.take 2197 ∧
      (truncateCaption s).drop 2197 = [46, 46, 46]) ∧
    (s.length ≤ maxCaptionLength → truncateCaption s = s) ∧
    truncateCaption (truncateCaption s) = truncateCaption s := by
  by_cases h : s.length ≤ maxCaptionLength
  · refine ⟨fun hlt => absurd h (by omega), fun _ => ?_, ?_⟩
    · simp [truncateCaption, h]
    · simp [truncateCaption, h]
  · have hlen : 2200 < s.length := by
      simpa [maxCaptionLength] using Nat.lt_of_not_le h
    have htr : truncateCaption s = s.take 2197 ++ [46, 46, 46] := by
      unfold truncateCaption
      rw [if_neg h]
      norm_num [maxCaptionLength]
    have htake_len : (s.take 2197).length = 2197 := by
      rw [List.length_take]
      omega
    have hfull : (truncateCaption s).length = maxCaptionLength := by
      rw [htr, List.length_append, htake_len]
      rfl
    refine ⟨fun _ => ⟨hfull, ?_, ?_⟩, fun hle => absurd hle h, ?_⟩
    · rw [htr, List.take_append_of_le_length (by omega), List.take_take]
      norm_num
    · rw [htr]
      have hd := List.drop_left (s.take 2197) [46, 46, 46]
      rw [htake_len] at hd
      exact hd
    · have hle : (truncateCaption s).length ≤ maxCaptionLength := by
        rw [hfull]
      rw [show truncateCaption (truncateCaption s) =
          if (truncateCaption s).length ≤ maxCaptionLength then truncateCaption s
          else (truncateCaption s).take (maxCaptionLength - 3) ++ [46, 46, 46]
          from rfl]
      rw [if_pos hle]

/-- C6 witness: the theorem applied at a 2300-byte caption and at a
3-byte caption. -/
theorem truncateCaption_cap_witness :
    (truncateCaption (List.replicate 2300 97)).length = maxCaptionLength ∧
    truncateCaption [1, 2, 3] = [1, 2, 3] :=
  ⟨((truncateCaption_cap (List.replicate 2300 97)).1
      (by norm_num [maxCaptionLength])).1,
    (truncateCaption_cap [1, 2, 3]).2.1 (by norm_num [maxCaptionLength])⟩

/- ## Instagram publisher lemmas -/

theorem string_append_ne_empty {a : String} (b : String) (h : ¬ a = "") :
    ¬ (a ++ b = "") := by
  intro he
  apply h
  have hlen := congrArg String.length he
  rw [String.length_append] at hlen
  have ha : a.length = 0 := by
    have : String.length ("") = 0 := rfl
    omega
  apply String.ext
  have : a.data.length = 0 := ha
  exact List.length_eq_zero.mp this

theorem runPublishContainer_ok_ne_empty {r : RemoteOutcome} {mid : String}
    (h : runPublishContainer r = Except.ok mid) : ¬ (mid = "") := by
  cases r with
  | transportFail m => simp [runPublishContainer] at h
  | apiError m code => simp [runPublishContainer] at h
  | payload i =>
    by_cases hi : i = ""
    · simp [runPublishContainer, hi] at h
    · simp only [runPublishContainer, hi, if_false] at h
      cases h
      exact hi

/-- C2: for every client and every behaviour of the three remote calls,
`PublishPost` returns a `nil` Go error; a successful result has
`posted = true`, a non-empty media identifier and an empty error field,
and every failure mode yields `posted = false` with a non-empty error
string. -/
theorem publishPost_structured (c : Client) (env : PublishEnv) :
    (PublishPost c env).goError = none ∧
    ((PublishPost c env).result.posted = true →
      ¬ (PublishPost c env).result.mediaID = "" ∧
      (PublishPost c env).result.error = "") ∧
    ((PublishPost c env).result.posted = false →
      ¬ (PublishPost c env).result.error = "") := by
  cases hconf : IsConfigured c with
  | false =>
    refine ⟨by simp [PublishPost, hconf], ?_, ?_⟩
    · intro h
      simp [PublishPost, hconf] at h
    · intro _
      simp only [PublishPost, hconf, Bool.not_false, if_true]
      decide
  | true =>
    cases hcr : runCreateContainer env.createOutcome with
    | error e =>
      refine ⟨by simp [PublishPost, hconf, hcr], ?_, ?_⟩
      · intro h
        simp [PublishPost, hconf, hcr] at h
      · intro _
        simp only [PublishPost, hconf, Bool.not_true, if_false, hcr]
        exact string_append_ne_empty e (by decide)
    | ok cid =>
      cases hw : (waitForContainerReady env.cancel env.pollScript).1 with
      | error e =>
        refine ⟨by simp [PublishPost, hconf, hcr, hw], ?_, ?_⟩
        · intro h
          simp [PublishPost, hconf, hcr, hw] at h
        · intro _
          simp only [PublishPost, hconf, Bool.not_true, if_false, hcr, hw]
          exact string_append_ne_empty e (by decide)
      | ok u =>
        cases hp : runPublishContainer env.publishOutcome with
        | error e =>
          refine ⟨by simp [PublishPost, hconf, hcr, hw, hp], ?_, ?_⟩
          · intro h
            simp [PublishPost, hconf, hcr, hw, hp] at h
          · intro _
            simp only [PublishPost, hconf, Bool.not_true, if_false, hcr, hw, hp]
            exact string_append_ne_empty e (by decide)
        | ok mid =>
          refine ⟨by simp [PublishPost, hconf, hcr, hw, hp], ?_, ?_⟩
          · intro _
            refine ⟨?_, by simp [PublishPost, hconf, hcr, hw, hp]⟩
            simp only [PublishPost, hconf, Bool.not_true, if_false, hcr, hw, hp]
            exact runPublishContainer_ok_ne_empty hp
          · intro h
            simp [PublishPost, hconf, hcr, hw, hp] at h

/-- C2 witness: the theorem applied to a configured client whose three
remote calls all succeed. -/
theorem publishPost_structured_witness :
    ¬ ((PublishPost ⟨("u"), ("t"), ("v23.0")⟩
        ⟨RemoteOutcome.payload ("c1"), fun _ => false,
          fun _ => PollResp.status ("FINISHED"),
          RemoteOutcome.payload ("m1")⟩).result.mediaID = "") :=
  ((publishPost_structured ⟨("u"), ("t"), ("v23.0")⟩
    ⟨RemoteOutcome.payload ("c1"), fun _ => false,
      fun _ => PollResp.status ("FINISHED"),
      RemoteOutcome.payload ("m1")⟩).2.1 (by decide)).1

/- ## Polling loop step lemmas -/

theorem waitAux_cancel_step {cancel : Nat → Bool} {script : Nat → PollResp}
    {k : Nat} (fuel : Nat) (h : cancel k = true) :
    waitForContainerReadyAux cancel script (fuel + 1) k =
      (Except.error ("context canceled"), [Ev.checkCancel]) := by
  simp [waitForContainerReadyAux, h]

theorem waitAux_finished_step {cancel : Nat → Bool} {script : Nat → PollResp}
    {k : Nat} (fuel : Nat) (hc : cancel k = false)
    (hs : script k = PollResp.status ("FINISHED")) :
    waitForContainerReadyAux cancel script (fuel + 1) k =
      (Except.ok (), [Ev.checkCancel, Ev.fetchStatus]) := by
  simp [waitForContainerReadyAux, hc, hs]

theorem waitAux_errorStatus_step {cancel : Nat → Bool} {script : Nat → PollResp}
    {k : Nat} (fuel : Nat) (hc : cancel k = false)
    (hs : script k = PollResp.status ("ERROR")) :
    waitForContainerReadyAux cancel script (fuel + 1) k =
      (Except.error ("container processing failed"),
        [Ev.checkCancel, Ev.fetchStatus]) := by
  simp [waitForContainerReadyAux, hc, hs]

theorem waitAux_continue_step {cancel : Nat → Bool} {script : Nat → PollResp}
    {k : Nat} {s : String} (fuel : Nat) (hc : cancel k = false)
    (hs : script k = PollResp.status s) (hF : ¬ s = "FINISHED")
    (hE : ¬ s = "ERROR") (hX : ¬ s = "EXPIRED") :
    waitForContainerReadyAux cancel script (fuel + 1) k =
      ((waitForContainerReadyAux cancel script fuel (k + 1)).1,
        Ev.checkCancel :: Ev.fetchStatus ::
          Ev.sleepDelay containerPollDelaySec ::
          (waitForContainerReadyAux cancel script fuel (k + 1)).2) := by
  simp [waitForContainerReadyAux, hc, hs, hF, hE, hX]

theorem waitAux_all_inprogress {cancel : Nat → Bool} {script : Nat → PollResp} :
    ∀ (fuel a : Nat),
      (∀ j, a ≤ j → j < a + fuel →
        cancel j = false ∧ script j = PollResp.status ("IN_PROGRESS")) →
      waitForContainerReadyAux cancel script fuel a =
        (Except.error notReadyMsg, inProgressTrace fuel) := by
  intro fuel
  induction fuel with
  | zero => intro a _; rfl
  | succ f ih =>
    intro a h
    have ha := h a (Nat.le_refl a) (by omega)
    rw [waitAux_continue_step f ha.1 ha.2 (by decide) (by decide) (by decide)]
    have hrec := ih (a + 1) (fun j hj1 hj2 => h j (by omega) (by omega))
    rw [hrec]
    rfl

theorem countEv_inProgressTrace_fetch (fuel : Nat) :
    countEv Ev.fetchStatus (inProgressTrace fuel) = fuel := by
  induction fuel with
  | zero => rfl
  | succ f ih => simp [inProgressTrace, countEv, ih]; omega

theorem countEv_inProgressTrace_publish (fuel : Nat) :
    countEv Ev.publishCall (inProgressTrace fuel) = 0 := by
  induction fuel with
  | zero => rfl
  | succ f ih => simp [inProgressTrace, countEv, ih]

theorem waitAux_cancelled_after {cancel : Nat → Bool} {script : Nat → PollResp} :
    ∀ (j fuel a : Nat), j < fuel →
      (∀ k, a ≤ k → k < a + j →
        cancel k = false ∧ script k = PollResp.status ("IN_PROGRESS")) →
      cancel (a + j) = true →
      (waitForContainerReadyAux cancel script fuel a).1 =
        Except.error ("context canceled") ∧
      countEv Ev.fetchStatus (waitForContainerReadyAux cancel script fuel a).2 =
        j := by
  intro j
  induction j with
  | zero =>
    intro fuel a hlt _ hcancel
    cases fuel with
    | zero => omega
    | succ f =>
      rw [waitAux_cancel_step f (by simpa using hcancel)]
      exact ⟨rfl, rfl⟩
  | succ n ih =>
    intro fuel a hlt h hcancel
    cases fuel with
    | zero => omega
    | succ f =>
      have ha := h a (Nat.le_refl a) (by omega)
      rw [waitAux_continue_step f ha.1 ha.2 (by decide) (by decide) (by decide)]
      have hrec := ih f (a + 1) (by omega)
        (fun k hk1 hk2 => h k (by omega) (by omega))
        (by rw [show a + 1 + n = a + (n + 1) from by omega]; exact hcancel)
      refine ⟨hrec.1, ?_⟩
      simp [countEv, hrec.2]
      omega

theorem waitAux_normalize {cancel : Nat → Bool} {script : Nat → PollResp} :
    ∀ (fuel a : Nat),
      waitForContainerReadyAux cancel (fun j => normalizePollResp (script j))
        fuel a = waitForContainerReadyAux cancel script fuel a := by
  intro fuel
  induction fuel with
  | zero => intro a; rfl
  | succ f ih =>
    intro a
    by_cases hc : cancel a = true
    · rw [waitAux_cancel_step f hc, waitAux_cancel_step f hc]
    · have hc' : cancel a = false := by simpa using hc
      cases hs : script a with
      | transportFail m =>
        have hs' : normalizePollResp (script a) = PollResp.transportFail m := by
          rw [hs]; rfl
        simp [waitForContainerReadyAux, hc', hs, hs', normalizePollResp]
      | apiError m code =>
        have hs' : normalizePollResp (script a) = PollResp.apiError m code := by
          rw [hs]; rfl
        simp [waitForContainerReadyAux, hc', hs, hs', normalizePollResp]
      | status s =>
        by_cases hF : s = "FINISHED"
        · subst hF
          have hs' : normalizePollResp (script a) =
              PollResp.status ("FINISHED") := by rw [hs]; rfl
          rw [waitAux_finished_step f hc' (by simpa using hs'),
            waitAux_finished_step f hc' hs]
        · by_cases hE : s = "ERROR"
          · subst hE
            have hs' : normalizePollResp (script a) =
                PollResp.status ("ERROR") := by rw [hs]; rfl
            rw [waitAux_errorStatus_step f hc' (by simpa using hs'),
              waitAux_errorStatus_step f hc' hs]
          · by_cases hX : s = "EXPIRED"
            · subst hX
              have hs' : normalizePollResp (script a) =
                  PollResp.status ("EXPIRED") := by rw [hs]; rfl
              simp [waitForContainerReadyAux, hc', hs,
                show (fun j => normalizePollResp (script j)) a =
                  PollResp.status ("EXPIRED") from hs', normalizePollResp]
            · by_cases hP : s = "IN_PROGRESS"
              · subst hP
                have hs' : normalizePollResp (script a) =
                    PollResp.status ("IN_PROGRESS") := by rw [hs]; rfl
                rw [waitAux_continue_step f hc' (by simpa using hs')
                    (by decide) (by decide) (by decide),
                  waitAux_continue_step f hc' hs
                    (by decide) (by decide) (by decide), ih]
              · have hs' : normalizePollResp (script a) =
                    PollResp.status ("IN_PROGRESS") := by
                  rw [hs]
                  simp [normalizePollResp, hF, hE, hX, hP]
                rw [waitAux_continue_step f hc' (by simpa using hs')
                    (by decide) (by decide) (by decide),
                  waitAux_continue_step f hc' hs hF hE hX, ih]

/- ## Claim theorem C1 -/

/-- C1: with a configured client and a successful container creation:
a scripted status sequence IN_PROGRESS, IN_PROGRESS, FINISHED makes the
publisher issue exactly 3 status calls and then exactly one publish
call; 15 consecutive IN_PROGRESS responses exhaust the attempt budget,
fail with the attempt-exhaustion message and issue no publish call; an
ERROR status on the first poll stops the publisher after exactly one
status call with a failure and no publish call; and a status script
whose unrecognized statuses are replaced by IN_PROGRESS drives the
polling loop to exactly the same outcome and trace. -/
theorem instagram_scripted_polling (c : Client) (env : PublishEnv)
    (cid : String) (hconf : IsConfigured c = true)
    (hcreate : runCreateContainer env.createOutcome = Except.ok cid) :
    ((env.cancel 0 = false ∧ env.cancel 1 = false ∧ env.cancel 2 = false ∧
      env.pollScript 0 = PollResp.status ("IN_PROGRESS") ∧
      env.pollScript 1 = PollResp.status ("IN_PROGRESS") ∧
      env.pollScript 2 = PollResp.status ("FINISHED")) →
      countEv Ev.fetchStatus (PublishPost c env).trace = 3 ∧
      countEv Ev.publishCall (PublishPost c env).trace = 1 ∧
      (PublishPost c env).trace =
        [Ev.createCall, Ev.checkCancel, Ev.fetchStatus, Ev.sleepDelay 2,
          Ev.checkCancel, Ev.fetchStatus, Ev.sleepDelay 2,
          Ev.checkCancel, Ev.fetchStatus, Ev.publishCall]) ∧
    ((∀ j, j < maxPollAttempts → env.cancel j = false ∧
        env.pollScript j = PollResp.status ("IN_PROGRESS")) →
      (PublishPost c env).result.posted = false ∧
      (PublishPost c env).result.error =
        ("container not ready: container not ready after 15 attempts") ∧
      countEv Ev.fetchStatus (PublishPost c env).trace = maxPollAttempts ∧
      countEv Ev.publishCall (PublishPost c env).trace = 0) ∧
    ((env.cancel 0 = false ∧ env.pollScript 0 = PollResp.status ("ERROR")) →
      (PublishPost c env).result.posted = false ∧
      countEv Ev.fetchStatus (PublishPost c env).trace = 1 ∧
      countEv Ev.publishCall (PublishPost c env).trace = 0) ∧
    (∀ (cancel : Nat → Bool) (script : Nat → PollResp) (fuel a : Nat),
      waitForContainerReadyAux cancel
        (fun j => normalizePollResp (script j)) fuel a =
      waitForContainerReadyAux cancel script fuel a) := by
  refine ⟨?_, ?_, ?_, fun cancel script fuel a => waitAux_normalize fuel a⟩
  · rintro ⟨h0c, h1c, h2c, h0, h1, h2⟩
    have hw : waitForContainerReady env.cancel env.pollScript =
        (Except.ok (), [Ev.checkCancel, Ev.fetchStatus, Ev.sleepDelay 2,
          Ev.checkCancel, Ev.fetchStatus, Ev.sleepDelay 2,
          Ev.checkCancel, Ev.fetchStatus]) := by
      unfold waitForContainerReady maxPollAttempts
      rw [show (15 : Nat) = 14 + 1 from rfl,
        waitAux_continue_step 14 h0c h0 (by decide) (by decide) (by decide),
        show (14 : Nat) = 13 + 1 from rfl,
        waitAux_continue_step 13 h1c h1 (by decide) (by decide) (by decide),
        show (13 : Nat) = 12 + 1 from rfl,
        waitAux_finished_step 12 h2c h2]
      rfl
    cases hp : runPublishContainer env.publishOutcome with
    | error e =>
      have htrace : (PublishPost c env).trace =
          Ev.createCall ::
            (waitForContainerReady env.cancel env.pollScript).2 ++
            [Ev.publishCall] := by
        simp [PublishPost, hconf, hcreate, hw, hp]
      rw [hw] at htrace
      exact ⟨by rw [htrace]; decide, by rw [htrace]; decide,
        by rw [htrace]; rfl⟩
    | ok mid =>
      have htrace : (PublishPost c env).trace =
          Ev.createCall ::
            (waitForContainerReady env.cancel env.pollScript).2 ++
            [Ev.publishCall] := by
        simp [PublishPost, hconf, hcreate, hw, hp]
      rw [hw] at htrace
      exact ⟨by rw [htrace]; decide, by rw [htrace]; decide,
        by rw [htrace]; rfl⟩
  · intro h
    have hw : waitForContainerReady env.cancel env.pollScript =
        (Except.error notReadyMsg, inProgressTrace maxPollAttempts) := by
      unfold waitForContainerReady
      exact waitAux_all_inprogress maxPollAttempts 0
        (fun j hj1 hj2 => h j (by omega))
    have hres : PublishPost c env =
        ⟨⟨"", false, ("container not ready: ") ++ notReadyMsg⟩, none,
          Ev.createCall :: inProgressTrace maxPollAttempts⟩ := by
      simp [PublishPost, hconf, hcreate, hw]
    rw [hres]
    refine ⟨rfl, by decide, ?_, ?_⟩
    · simp [countEv, countEv_inProgressTrace_fetch, maxPollAttempts]
    · simp [countEv, countEv_inProgressTrace_publish]
  · rintro ⟨h0c, h0⟩
    have hw : waitForContainerReady env.cancel env.pollScript =
        (Except.error ("container processing failed"),
          [Ev.checkCancel, Ev.fetchStatus]) := by
      unfold waitForContainerReady maxPollAttempts
      rw [show (15 : Nat) = 14 + 1 from rfl,
        waitAux_errorStatus_step 14 h0c h0]
    have hres : PublishPost c env =
        ⟨⟨"", false,
          ("container not ready: ") ++ ("container processing failed")⟩,
          none, Ev.createCall :: [Ev.checkCancel, Ev.fetchStatus]⟩ := by
      simp [PublishPost, hconf, hcreate, hw]
    rw [hres]
    exact ⟨rfl, by decide, by decide⟩

/-- C1 witness: the theorem applied to a configured client, one
concrete script that finishes on the third poll, and one that never
progresses. -/
theorem instagram_scripted_polling_witness :
    (PublishPost ⟨("u"), ("t"), ("v23.0")⟩
      ⟨RemoteOutcome.payload ("c1"), fun _ => false,
        fun k => if k < 2 then PollResp.status ("IN_PROGRESS")
          else PollResp.status ("FINISHED"),
        RemoteOutcome.payload ("m1")⟩).trace =
      [Ev.createCall, Ev.checkCancel, Ev.fetchStatus, Ev.sleepDelay 2,
        Ev.checkCancel, Ev.fetchStatus, Ev.sleepDelay 2,
        Ev.checkCancel, Ev.fetchStatus, Ev.publishCall] ∧
    (PublishPost ⟨("u"), ("t"), ("v23.0")⟩
      ⟨RemoteOutcome.payload ("c1"), fun _ => false,
        fun _ => PollResp.status ("IN_PROGRESS"),
        RemoteOutcome.payload ("m1")⟩).result.error =
      ("container not ready: container not ready after 15 attempts") :=
  ⟨((instagram_scripted_polling ⟨("u"), ("t"), ("v23.0")⟩
      ⟨RemoteOutcome.payload ("c1"), fun _ => false,
        fun k => if k < 2 then PollResp.status ("IN_PROGRESS")
          else PollResp.status ("FINISHED"),
        RemoteOutcome.payload ("m1")⟩ ("c1") (by decide) rfl).1
      ⟨rfl, rfl, rfl, rfl, rfl, rfl⟩).2.2,
    ((instagram_scripted_polling ⟨("u"), ("t"), ("v23.0")⟩
      ⟨RemoteOutcome.payload ("c1"), fun _ => false,
        fun _ => PollResp.status ("IN_PROGRESS"),
        RemoteOutcome.payload ("m1")⟩ ("c1") (by decide) rfl).2.1
      (fun j _ => ⟨rfl, rfl⟩)).2.1⟩

/- ## Scanner lemmas for the polling trace -/

theorem scanners_waitAux {cancel : Nat → Bool} {script : Nat → PollResp} :
    ∀ (fuel a : Nat),
      sleepSinceLastFetch true
        (waitForContainerReadyAux cancel script fuel a).2 = true ∧
      cancelCheckedBeforeFetch
        (waitForContainerReadyAux cancel script fuel a).2 = true := by
  intro fuel
  induction fuel with
  | zero => intro a; exact ⟨rfl, rfl⟩
  | succ f ih =>
    intro a
    by_cases hc : cancel a = true
    · rw [waitAux_cancel_step f hc]
      exact ⟨rfl, rfl⟩
    · have hc' : cancel a = false := by simpa using hc
      cases hs : script a with
      | transportFail m =>
        have ht : waitForContainerReadyAux cancel script (f + 1) a =
            (Except.error m, [Ev.checkCancel, Ev.fetchStatus]) := by
          simp [waitForContainerReadyAux, hc', hs]
        rw [ht]
        exact ⟨rfl, rfl⟩
      | apiError m code =>
        have ht : waitForContainerReadyAux cancel script (f + 1) a =
            (Except.error (apiErrMsg m code),
              [Ev.checkCancel, Ev.fetchStatus]) := by
          simp [waitForContainerReadyAux, hc', hs]
        rw [ht]
        exact ⟨rfl, rfl⟩
      | status s =>
        by_cases hF : s = "FINISHED"
        · subst hF
          rw [waitAux_finished_step f hc' hs]
          exact ⟨rfl, rfl⟩
        · by_cases hE : s = "ERROR"
          · subst hE
            rw [waitAux_errorStatus_step f hc' hs]
            exact ⟨rfl, rfl⟩
          · by_cases hX : s = "EXPIRED"
            · subst hX
              have ht : waitForContainerReadyAux cancel script (f + 1) a =
                  (Except.error ("container expired"),
                    [Ev.checkCancel, Ev.fetchStatus]) := by
                simp [waitForContainerReadyAux, hc', hs]
              rw [ht]
              exact ⟨rfl, rfl⟩
            · rw [waitAux_continue_step f hc' hs hF hE hX]
              refine ⟨?_, ?_⟩
              · have h1 := (ih (a + 1)).1
                simpa [sleepSinceLastFetch] using h1
              · have h2 := (ih (a + 1)).2
                simpa [cancelCheckedBeforeFetch] using h2

/- ## Claim C8 -/

/-- C8 counterexample: with a script whose first status is already
FINISHED and no cancellation, the single status fetch of the run is not
preceded by any delay, refuting the claim that each of the up-to-15
status fetches is preceded by a 2-second delay. -/
theorem polling_first_attempt_no_delay_cex :
    sleepSinceLastFetch false
      (waitForContainerReady (fun _ => false)
        (fun _ => PollResp.status ("FINISHED"))).2 = false := by
  decide

/-- C8 amended: in the polling loop the 2-second delay follows each
non-terminal attempt, so every status fetch after the first is preceded
by a 2-second delay since the previous fetch while the first fetch is
immediate; caller cancellation is checked immediately before every
status fetch; and a context cancelled at poll boundary `j` (with
earlier boundaries uncancelled and earlier polls in progress) aborts
the loop at once with a cancellation failure after exactly `j` status
fetches instead of waiting out the remaining attempt budget. -/
theorem polling_delay_and_cancellation :
    (∀ (cancel : Nat → Bool) (script : Nat → PollResp),
      sleepSinceLastFetch true (waitForContainerReady cancel script).2 = true ∧
      cancelCheckedBeforeFetch (waitForContainerReady cancel script).2 = true) ∧
    (∀ (cancel : Nat → Bool) (script : Nat → PollResp) (j : Nat),
      j < maxPollAttempts →
      (∀ k, k < j → cancel k = false ∧
        script k = PollResp.status ("IN_PROGRESS")) →
      cancel j = true →
      (waitForContainerReady cancel script).1 =
        Except.error ("context canceled") ∧
      countEv Ev.fetchStatus (waitForContainerReady cancel script).2 = j) :=
  ⟨fun _ _ => scanners_waitAux maxPollAttempts 0,
    fun _ _ j hj h hcancel =>
      waitAux_cancelled_after j maxPollAttempts 0 hj
        (fun k _ hk2 => h k (by omega)) (by simpa using hcancel)⟩

/-- C8 witness: the cancellation part of the amended theorem applied to
a context cancelled at the second poll boundary. -/
theorem polling_delay_and_cancellation_witness :
    (waitForContainerReady (fun k => decide (1 ≤ k))
      (fun _ => PollResp.status ("IN_PROGRESS"))).1 =
      Except.error ("context canceled") ∧
    countEv Ev.fetchStatus
      (waitForContainerReady (fun k => decide (1 ≤ k))
        (fun _ => PollResp.status ("IN_PROGRESS"))).2 = 1 :=
  polling_delay_and_cancellation.2 (fun k => decide (1 ≤ k))
    (fun _ => PollResp.status ("IN_PROGRESS")) 1 (by decide)
    (fun k hk => by
      have hk0 : k = 0 := by omega
      subst hk0
      exact ⟨rfl, rfl⟩) rfl

/- ## Claims C3 and C4 -/

/-- C3: when AI generation has succeeded and any step of the screenshot
chain fails (uploader construction, capture, or upload), the chosen
cover image is the AI-suggested one, the orchestrator still performs
exactly one insert, and the HTTP caller receives the persisted record
(the chain failure is never propagated). -/
theorem orchestrator_screenshot_failure_fallback (env : ScreenshotEnv)
    (data : CompanyFromAI)
    (hfail : (∃ e, env.uploaderOutcome = Except.error e) ∨
      (∃ e, env.screenshotOutcome = Except.error e) ∨
      (∃ e, env.uploadOutcome = Except.error e)) :
    (resolveCoverImage env data).1 = data.coverImage ∧
    generateAfterAI env data true =
      (HandlerResp.okCompany (buildCompanyMap data data.coverImage), 1,
        (resolveCoverImage env data).2) ∧
    (buildCompanyMap data data.coverImage).coverImage = data.coverImage := by
  have hcover : (resolveCoverImage env data).1 = data.coverImage := by
    by_cases hcfg : screenshotConfigComplete env data.website = true
    · cases hu : env.uploaderOutcome with
      | error e => simp [resolveCoverImage, hcfg, hu]
      | ok u =>
        cases hs : env.screenshotOutcome with
        | error e => simp [resolveCoverImage, hcfg, hu, hs]
        | ok b =>
          cases hl : env.uploadOutcome with
          | error e => simp [resolveCoverImage, hcfg, hu, hs, hl]
          | ok s3 =>
            exfalso
            rcases hfail with ⟨e, he⟩ | ⟨e, he⟩ | ⟨e, he⟩ <;>
              simp [hu, hs, hl] at he
    · simp [resolveCoverImage, hcfg]
  refine ⟨hcover, ?_, rfl⟩
  simp [generateAfterAI, hcover]

/-- C3 witness: the theorem applied to a complete configuration whose
screenshot capture fails. -/
theorem orchestrator_screenshot_failure_fallback_witness :
    (resolveCoverImage
      ⟨("r"), ("a"), ("s"), ("b"), ("k"), Except.ok (),
        Except.error ("capture failed"), Except.ok ("https://s3/x.png")⟩
      ⟨("Acme"), ("https://acme.io"), ("https://ai/img.png"), ("d"),
        ("ap"), (""), (""), (""), ("")⟩).1 = ("https://ai/img.png") :=
  (orchestrator_screenshot_failure_fallback
    ⟨("r"), ("a"), ("s"), ("b"), ("k"), Except.ok (),
      Except.error ("capture failed"), Except.ok ("https://s3/x.png")⟩
    ⟨("Acme"), ("https://acme.io"), ("https://ai/img.png"), ("d"),
      ("ap"), (""), (""), (""), ("")⟩
    (Or.inr (Or.inl ⟨("capture failed"), rfl⟩))).1

/-- C4: when any of the five configuration values is empty or the
AI-returned website is empty, the orchestrator makes no screenshot call
and no upload, and the cover image of the inserted record is the
AI-suggested value unmodified. -/
theorem orchestrator_config_incomplete_skip (env : ScreenshotEnv)
    (data : CompanyFromAI) (insertSucceeds : Bool)
    (hmiss : env.awsRegion = "" ∨ env.awsAccessKey = "" ∨
      env.awsSecretKey = "" ∨ env.s3Bucket = "" ∨
      env.screenshotAPIKey = "" ∨ data.website = "") :
    resolveCoverImage env data = (data.coverImage, []) ∧
    (generateAfterAI env data insertSucceeds).2.2 = [] ∧
    (generateAfterAI env data true).1 =
      HandlerResp.okCompany (buildCompanyMap data data.coverImage) ∧
    (buildCompanyMap data data.coverImage).coverImage = data.coverImage := by
  have hcfg : screenshotConfigComplete env data.website = false := by
    rcases hmiss with h | h | h | h | h | h <;>
      simp [screenshotConfigComplete, h]
  have hres : resolveCoverImage env data = (data.coverImage, []) := by
    simp [resolveCoverImage, hcfg]
  refine ⟨hres, ?_, ?_, rfl⟩
  · cases insertSucceeds <;> simp [generateAfterAI, hres]
  · simp [generateAfterAI, hres]

/-- C4 witness: the theorem applied to a configuration whose storage
region is missing. -/
theorem orchestrator_config_incomplete_skip_witness :
    resolveCoverImage
      ⟨(""), ("a"), ("s"), ("b"), ("k"), Except.ok (),
        Except.ok [1], Except.ok ("https://s3/x.png")⟩
      ⟨("Acme"), ("https://acme.io"), ("https://ai/img.png"), ("d"),
        ("ap"), (""), (""), (""), ("")⟩ =
      (("https://ai/img.png"), []) :=
  (orchestrator_config_incomplete_skip
    ⟨(""), ("a"), ("s"), ("b"), ("k"), Except.ok (),
      Except.ok [1], Except.ok ("https://s3/x.png")⟩
    ⟨("Acme"), ("https://acme.io"), ("https://ai/img.png"), ("d"),
      ("ap"), (""), (""), (""), ("")⟩ true (Or.inl rfl)).1

/- ## Claim C7 -/

/-- C7 counterexample: a 200 response whose single choice carries the
content `JSON object with no fields` satisfies the claimed failure
condition (the required fields name, website, cover_image, description,
appeal are all missing), yet `generateCompanyFromAI` succeeds, because
`json.Unmarshal` treats every declared field as optional. -/
theorem generateCompanyFromAI_required_fields_cex :
    specClaimsFailure
      (AIOutcome.httpResp 200 (some ⟨[⟨⟨some (Json.obj [])⟩⟩]⟩)) = true ∧
    isErrorResult
      (generateCompanyFromAI
        (AIOutcome.httpResp 200 (some ⟨[⟨⟨some (Json.obj [])⟩⟩]⟩))) =
      false := by
  exact ⟨rfl, rfl⟩

/-- C7 amended: `generateCompanyFromAI` returns an error if and only if
the completion request cannot be sent, the API responds with a non-200
status, the response body does not decode or contains zero choices, or
the first choice's message content does not decode leniently into the
company structure (invalid JSON, a non-object and non-null top level,
or a declared field bound to a value that is neither a string nor
null); missing fields are not required and default to empty strings. -/
theorem generateCompanyFromAI_error_conditions (o : AIOutcome) :
    isErrorResult (generateCompanyFromAI o) = codeFailureCond o := by
  cases o with
  | transportFail => rfl
  | httpResp status body =>
    by_cases hst : status = 200
    · subst hst
      cases body with
      | none => rfl
      | some resp =>
        obtain ⟨choices⟩ := resp
        cases choices with
        | nil => rfl
        | cons choice rest =>
          obtain ⟨msg⟩ := choice
          obtain ⟨content⟩ := msg
          cases content with
          | none => rfl
          | some j =>
            cases hd : decodeCompanyFromAI j with
            | none =>
              simp [generateCompanyFromAI, codeFailureCond, isErrorResult, hd]
            | some comp =>
              simp [generateCompanyFromAI, codeFailureCond, isErrorResult, hd]
    · simp [generateCompanyFromAI, codeFailureCond, isErrorResult, hst]
